import Mathlib

/-! Verification of the react-aframe-game repository.

The repository has three parts that the claims touch:
  * the ArUco-style fiducial marker detection core (the aruco module is
    imported by the detector component but its source is not among the
    provided files, so it is modelled from the specification, section 4);
  * the React App state machine of src/index.js;
  * the canvas drawing code of the detector component (drawCorners,
    draw2DImg, tick).
-/

namespace Spec2Proof

namespace Aruco

/-- Point in frame pixel coordinates (Point2D of the spec, with integer
pixel coordinates as produced by the contour tracer). -/
structure Pt where
  x : Int
  y : Int
deriving DecidableEq, Repr

/-- A quadrilateral given by its four corners in order. -/
structure Quad where
  a : Pt
  b : Pt
  c : Pt
  d : Pt
deriving DecidableEq, Repr

/-- Final detection output: a marker identity together with its four
corners (spec section 3, Marker). -/
structure Marker where
  id : Nat
  corners : Quad
deriving DecidableEq, Repr

/-- Modelled from the spec: a raster frame as supplied by the FrameSource
collaborator, a flat byte buffer with explicit width, height and channel
count (spec sections 2, 3 and 6). -/
structure Frame where
  width : Nat
  height : Nat
  channels : Nat
  data : List Nat
deriving DecidableEq, Repr

/-- Modelled from the spec: the structural well-formedness of an input
frame, the buffer length matches width times height times channels and
the channel count is 1 (grayscale) or 4 (RGBA) (spec sections 3 and 7). -/
def Frame.validShape (f : Frame) : Bool :=
  (f.data.length == f.width * f.height * f.channels)
    && (f.channels == 1 || f.channels == 4)

/-- Modelled from the spec: the InvalidFrame signal that the orchestrator
raises on structurally malformed input (spec section 7). -/
inductive InvalidFrame : Type where
  | signal : InvalidFrame
deriving DecidableEq, Repr

/-- Modelled from the spec: the read-only configuration fixed at
construction time (spec section 6). -/
structure Config where
  adaptiveThresholdWindow : Nat
  adaptiveThresholdConstant : Nat
  minContourPerimeter : Nat
  minAreaDenom : Nat
  maxAspect : Nat
  dpEpsDen : Nat
  dpMaxIters : Nat
  cellSamples : Nat
  duplicateCornerEpsilonPx : Nat
deriving DecidableEq, Repr

/-- The process-wide configuration used by the detector instance. -/
def defaultConfig : Config :=
  { adaptiveThresholdWindow := 3
    adaptiveThresholdConstant := 10
    minContourPerimeter := 20
    minAreaDenom := 64
    maxAspect := 4
    dpEpsDen := 10
    dpMaxIters := 4
    cellSamples := 1
    duplicateCornerEpsilonPx := 4 }

/-! MarkerDecoder (spec section 4.5).  Modelled from the spec: the marker
format is pinned, as section 9 instructs, to the classic 5x5 ArUco code:
a 7x7 cell grid whose outer ring is uniformly dark and whose inner 5x5
rows are each one of four Hamming code words carrying two data bits, so
the dictionary holds the 1024 ids 0..1023. -/

/-- The four valid 5-bit code words of the dictionary, each encoding the
two data bits 00, 01, 10, 11 in order.  A true entry is a dark cell. -/
def codeWords : List (List Bool) :=
  [ [true, false, false, false, false]
  , [true, false, true, true, true]
  , [false, true, false, false, true]
  , [false, true, true, true, false] ]

/-- Decode one 5-bit row to its two data bits, none when the row is not a
valid code word (the checksum rule of the dictionary). -/
def rowBits (r : List Bool) : Option Nat :=
  codeWords.findIdx? (· == r)

/-- Decode a 5x5 inner bit grid to an id: every row must be a valid code
word; the rows contribute two bits each, most significant first. -/
def decodeInner (m : List (List Bool)) : Option Nat :=
  if m.length == 5 then
    (m.mapM rowBits).map (·.foldl (fun acc v => acc * 4 + v) 0)
  else none

/-- Cell lookup in a bit grid, false outside. -/
def cellAt (g : List (List Bool)) (i j : Nat) : Bool :=
  (g.getD i []).getD j false

/-- Check that the outer ring of the 7x7 grid is uniformly dark (the
black border margin required by the dictionary, spec section 4.5). -/
def borderOK (g : List (List Bool)) : Bool :=
  g.length == 7 && g.all (·.length == 7) &&
    (List.range 7).all fun i => (List.range 7).all fun j =>
      !(i == 0 || i == 6 || j == 0 || j == 6) || cellAt g i j

/-- Extract the inner 5x5 grid of a 7x7 grid. -/
def innerOf (g : List (List Bool)) : List (List Bool) :=
  ((g.drop 1).take 5).map fun r => (r.drop 1).take 5

/-- Rotate a square bit grid a quarter turn clockwise. -/
def rotGrid (m : List (List Bool)) : List (List Bool) :=
  m.reverse.transpose

/-- Try the four cardinal rotations of the inner grid in order, accepting
the first one whose rows all validate (spec section 4.5 step 4). -/
def tryRotations (m : List (List Bool)) : Option (Nat × Nat) :=
  match decodeInner m with
  | some id => some (id, 0)
  | none =>
    match decodeInner (rotGrid m) with
    | some id => some (id, 1)
    | none =>
      match decodeInner (rotGrid (rotGrid m)) with
      | some id => some (id, 2)
      | none =>
        match decodeInner (rotGrid (rotGrid (rotGrid m))) with
        | some id => some (id, 3)
        | none => none

/-- Decode a 7x7 boolean cell grid: check the border ring, then try the
four rotations of the inner code (spec section 4.5 steps 2 to 4). -/
def decodeGrid (g : List (List Bool)) : Option (Nat × Nat) :=
  if borderOK g then tryRotations (innerOf g) else none

/-- Encode an id below 1024 as its inner 5x5 bit pattern. -/
def encodeInner (id : Nat) : List (List Bool) :=
  (List.range 5).map fun i => codeWords.getD ((id >>> (2 * (4 - i))) % 4) []

/-- Encode an id below 1024 as its full 7x7 bit pattern with the dark
border ring. -/
def encodeGrid (id : Nat) : List (List Bool) :=
  let inner := encodeInner id
  let full : List Bool := List.replicate 7 true
  [full] ++ (inner.map fun r => [true] ++ r ++ [true]) ++ [full]

/-- Render a bit pattern into a synthetic grayscale image, one pixel per
cell: dark cells become 0, light cells 255. -/
def renderGridImage (g : List (List Bool)) : List (List Nat) :=
  g.map fun r => r.map fun b => if b then 0 else 255

/-- Binarize the cells of a grayscale cell image against the global
threshold 128 and decode it (spec section 4.5 step 1 followed by the
decoding steps). -/
def decodeCellImage (img : List (List Nat)) : Option (Nat × Nat) :=
  decodeGrid (img.map fun r => r.map fun v => v < 128)

/-! Binarizer (spec section 4.1). -/

/-- A grayscale raster stored as rows of pixel values. -/
structure Gray where
  width : Nat
  height : Nat
  rows : List (List Nat)
deriving DecidableEq, Repr

/-- Modelled from the spec: grayscale conversion of a valid frame; a
1-channel frame is already grayscale, a 4-channel RGBA frame averages the
three color channels (spec sections 2 and 6). -/
def toGray (f : Frame) : Gray :=
  let flat : List Nat :=
    if f.channels == 4 then
      (List.range (f.width * f.height)).map fun i =>
        (f.data.getD (4 * i) 0 + f.data.getD (4 * i + 1) 0
          + f.data.getD (4 * i + 2) 0) / 3
    else f.data
  { width := f.width, height := f.height
    rows := (List.range f.height).map fun y => (flat.drop (y * f.width)).take f.width }

/-- Sum of the pixel values of a raster over the inclusive rectangle with
corners x0, y0 and x1, y1. -/
def windowSum (g : Gray) (x0 x1 y0 y1 : Nat) : Nat :=
  (((g.rows.drop y0).take (y1 + 1 - y0)).map fun r =>
    ((r.drop x0).take (x1 + 1 - x0)).sum).sum

/-- Modelled from the spec: adaptive threshold classification of one
pixel, comparing it to the mean over the clamped sliding window minus a
constant; the comparison is kept in integers by cross multiplying with
the window pixel count (spec section 4.1). -/
def darkPixel (cfg : Config) (g : Gray) (x y : Nat) : Bool :=
  let r := cfg.adaptiveThresholdWindow
  let x0 := x - r
  let x1 := min (x + r) (g.width - 1)
  let y0 := y - r
  let y1 := min (y + r) (g.height - 1)
  let count := (x1 + 1 - x0) * (y1 + 1 - y0)
  let px := (g.rows.getD y []).getD x 255
  (px + cfg.adaptiveThresholdConstant) * count < windowSum g x0 x1 y0 y1

/-- Modelled from the spec: the Binarizer, producing a boolean raster
where true marks a dark pixel (spec section 4.1). -/
def binarize (cfg : Config) (g : Gray) : List (List Bool) :=
  (List.range g.height).map fun y => (List.range g.width).map fun x =>
    darkPixel cfg g x y

/-! ContourTracer (spec section 4.2). -/

/-- Dark test on the binary raster, false outside the bounds. -/
def darkAt (bin : List (List Bool)) (x y : Int) : Bool :=
  if x < 0 || y < 0 then false
  else (bin.getD y.toNat []).getD x.toNat false

/-- The eight Moore neighbour offsets in clockwise order starting east
(screen coordinates, y growing downwards). -/
def mooreDirs : List (Int × Int) :=
  [(1, 0), (1, 1), (0, 1), (-1, 1), (-1, 0), (-1, -1), (0, -1), (1, -1)]

/-- Index of a neighbour offset in the clockwise order. -/
def dirIdx (dx dy : Int) : Nat :=
  (mooreDirs.findIdx? (· == (dx, dy))).getD 0

/-- One step of Moore neighbour tracing: from the current boundary pixel
and its light backtrack neighbour, scan the neighbourhood clockwise
starting just past the backtrack; the first dark pixel is the next
boundary pixel and the light pixel examined just before it is the new
backtrack.  None when the pixel is isolated. -/
def mooreStep (bin : List (List Bool)) (p b : Pt) : Option (Pt × Pt) :=
  let bi := dirIdx (b.x - p.x) (b.y - p.y)
  let rec search : Nat → Option (Pt × Pt)
    | 0 => none
    | n + 1 =>
      let j := 9 - (n + 1)
      let k := (bi + j) % 8
      let d := mooreDirs.getD k (1, 0)
      let q : Pt := ⟨p.x + d.1, p.y + d.2⟩
      if darkAt bin q.x q.y then
        let dprev := mooreDirs.getD ((bi + j + 7) % 8) (1, 0)
        some (q, ⟨p.x + dprev.1, p.y + dprev.2⟩)
      else search n
  search 8

/-- Moore neighbour border following from a start pixel with a given
initial backtrack, with fuel; stops when the start is re-entered with the
same backtrack (the Jacob stopping criterion). -/
def traceFrom (bin : List (List Bool)) (fuel : Nat) (p b start b0 : Pt)
    (acc : List Pt) : List Pt :=
  match fuel with
  | 0 => acc.reverse
  | fuel + 1 =>
    match mooreStep bin p b with
    | none => acc.reverse
    | some (q, b1) =>
      if q == start && b1 == b0 then acc.reverse
      else traceFrom bin fuel q b1 start b0 (q :: acc)

/-- Trace the border contour through a start pixel whose left neighbour
is light. -/
def traceContour (bin : List (List Bool)) (wh : Nat) (start : Pt) : List Pt :=
  let b0 : Pt := ⟨start.x - 1, start.y⟩
  traceFrom bin (4 * wh) start b0 start b0 [start]

/-- Doubled signed area (shoelace) of a point cycle. -/
def shoelace2 (ps : List Pt) : Int :=
  ((ps.zip (ps.drop 1 ++ ps.take 1)).map fun pq =>
    pq.1.x * pq.2.y - pq.2.x * pq.1.y).sum

/-- Mark the pixels of a contour as visited. -/
def markVisited (vis : List (List Bool)) (ps : List Pt) : List (List Bool) :=
  ps.foldl (fun v p =>
    v.set p.y.toNat ((v.getD p.y.toNat []).set p.x.toNat true)) vis

/-- Visited test. -/
def visitedAt (vis : List (List Bool)) (x y : Nat) : Bool :=
  (vis.getD y []).getD x false

/-- Modelled from the spec: the ContourTracer.  Raster scan for an
unvisited dark pixel whose left neighbour is light, Moore border
following from it, marking visited pixels; contours below the minimum
pixel perimeter are dropped, and only outer contours (clockwise trace,
positive shoelace sign in screen coordinates) are kept (spec section 4.2). -/
def findContours (cfg : Config) (bin : List (List Bool)) (w h : Nat) :
    List (List Pt) :=
  let positions : List (Nat × Nat) :=
    (List.range h).flatMap fun y => (List.range w).map fun x => (x, y)
  let out := positions.foldl (fun st pos =>
    let x : Nat := pos.1
    let y : Nat := pos.2
    if darkAt bin x y && !(darkAt bin ((x : Int) - 1) y) && !(visitedAt st.2 x y) then
      let c := traceContour bin (w * h) ⟨x, y⟩
      let vis1 := markVisited st.2 c
      if decide (cfg.minContourPerimeter ≤ c.length) && decide (0 < shoelace2 c) then
        (c :: st.1, vis1)
      else (st.1, vis1)
    else st)
    (([] : List (List Pt)), bin.map fun r => r.map fun _ => false)
  out.1.reverse

/-! PolygonApproximator (spec section 4.3). -/

/-- Cross product of the segment from a to b with the vector from a to p,
measuring the deviation of p from the line through a and b. -/
def cross2 (a b p : Pt) : Int :=
  (b.x - a.x) * (p.y - a.y) - (b.y - a.y) * (p.x - a.x)

/-- Squared length of the segment from a to b. -/
def len2 (a b : Pt) : Int :=
  (b.x - a.x) ^ 2 + (b.y - a.y) ^ 2

/-- Index and squared cross value of the interior point deviating most
from the chord of an open polyline. -/
def maxDeviation (a b : Pt) (pts : List Pt) : Nat × Int :=
  (pts.enum.drop 1).dropLast.foldl
    (fun bst ip =>
      let c := (cross2 a b ip.2) ^ 2
      if bst.2 < c then (ip.1, c) else bst)
    (0, -1)

/-- Open polyline simplification in the Douglas Peucker style: keep the
two endpoints when every interior point is within the tolerance of the
chord, otherwise split at the farthest point.  The squared tolerance is
the rational epsN squared over epsD squared, and distances are compared
by cross multiplication so everything stays in integers. -/
def dpOpen (fuel : Nat) (epsN2 epsD2 : Int) (pts : List Pt) : List Pt :=
  match fuel with
  | 0 => pts
  | fuel + 1 =>
    if pts.length ≤ 2 then pts
    else
      let a := pts.headD ⟨0, 0⟩
      let b := pts.getLastD ⟨0, 0⟩
      let best := maxDeviation a b pts
      if best.2 * epsD2 ≤ epsN2 * len2 a b then [a, b]
      else
        dpOpen fuel epsN2 epsD2 (pts.take (best.1 + 1))
          ++ (dpOpen fuel epsN2 epsD2 (pts.drop best.1)).drop 1

/-- Iterated approximation: run the simplification with the tolerance
epsN over epsD, doubling the tolerance until exactly 4 vertices remain
or the iteration cap runs out (spec section 4.3). -/
def approxLoop (iter : Nat) (epsN epsD2 : Int) (pa pb : List Pt) :
    Option (List Pt) :=
  match iter with
  | 0 => none
  | iter + 1 =>
    let va := dpOpen pa.length (epsN ^ 2) epsD2 pa
    let vb := dpOpen pb.length (epsN ^ 2) epsD2 pb
    let cyc := va.dropLast ++ vb.dropLast
    if cyc.length == 4 then some cyc
    else if cyc.length < 4 then none
    else approxLoop iter (2 * epsN) epsD2 pa pb

/-- Modelled from the spec: reduce a closed contour to a quadrilateral.
The contour is split at the point farthest from its first point into two
open polylines, each simplified with an epsilon proportional to the
contour perimeter (the pixel count over dpEpsDen), doubling up to the
iteration cap; reject unless exactly 4 vertices remain (spec section 4.3). -/
def approx4 (cfg : Config) (contour : List Pt) : Option Quad :=
  match contour with
  | [] => none
  | p0 :: _ =>
    let far := contour.enum.foldl
      (fun bst ip =>
        let d := (ip.2.x - p0.x) ^ 2 + (ip.2.y - p0.y) ^ 2
        if bst.2 < d then (ip.1, d) else bst)
      (0, -1)
    let pa := contour.take (far.1 + 1)
    let pb := contour.drop far.1 ++ [p0]
    match approxLoop cfg.dpMaxIters (contour.length : Int)
        ((cfg.dpEpsDen : Int) ^ 2) pa pb with
    | some [a, b, c, d] => some ⟨a, b, c, d⟩
    | _ => none

/-- Doubled signed area of a quadrilateral by the shoelace formula. -/
def signedArea2 (q : Quad) : Int :=
  (q.a.x * q.b.y - q.b.x * q.a.y) + (q.b.x * q.c.y - q.c.x * q.b.y)
    + (q.c.x * q.d.y - q.d.x * q.c.y) + (q.d.x * q.a.y - q.a.x * q.d.y)

/-- The reversed corner cycle, first corner kept. -/
def quadReverse (q : Quad) : Quad :=
  ⟨q.a, q.d, q.c, q.b⟩

/-- Convexity: all four consecutive edge cross products strictly
positive, or all strictly negative. -/
def convexQuad (q : Quad) : Bool :=
  let z0 := cross2 q.a q.b q.c
  let z1 := cross2 q.b q.c q.d
  let z2 := cross2 q.c q.d q.a
  let z3 := cross2 q.d q.a q.b
  (decide (0 < z0) && decide (0 < z1) && decide (0 < z2) && decide (0 < z3))
    || (decide (z0 < 0) && decide (z1 < 0) && decide (z2 < 0) && decide (z3 < 0))

/-- Bounding box aspect filter: neither side degenerate and the ratio of
the sides at most maxAspect. -/
def aspectOK (cfg : Config) (q : Quad) : Bool :=
  let xs := [q.a.x, q.b.x, q.c.x, q.d.x]
  let ys := [q.a.y, q.b.y, q.c.y, q.d.y]
  let dx := (xs.foldl max q.a.x) - (xs.foldl min q.a.x)
  let dy := (ys.foldl max q.a.y) - (ys.foldl min q.a.y)
  decide (0 < dx) && decide (0 < dy)
    && decide (dx ≤ (cfg.maxAspect : Int) * dy)
    && decide (dy ≤ (cfg.maxAspect : Int) * dx)

/-- Candidate of the data model: a filtered quadrilateral with the pixel
perimeter of the contour it came from (spec section 3). -/
structure Candidate where
  corners : Quad
  perimeter : Nat
deriving DecidableEq, Repr

/-- Modelled from the spec: the PolygonApproximator post filter.  The
approximated quadrilateral is rejected unless convex, of area at least
the frame area over minAreaDenom, and of moderate aspect; the corner
cycle is then normalized to positive shoelace sign (clockwise in screen
coordinates) by the signed area check (spec section 4.3). -/
def toCandidate (cfg : Config) (w h : Nat) (contour : List Pt) :
    Option Candidate :=
  (approx4 cfg contour).bind fun q =>
    if convexQuad q
        && decide (2 * w * h ≤ (signedArea2 q).natAbs * cfg.minAreaDenom)
        && aspectOK cfg q then
      some { corners := if 0 < signedArea2 q then q else quadReverse q
             perimeter := contour.length }
    else none

/-! HomographyWarper (spec section 4.4).  Subpixel arithmetic is exact:
rational numbers are kept as plain integer fractions with positive
denominator and no normalization, so every operation is structural. -/

/-- An exact fraction; every constructor below keeps the denominator
positive. -/
structure Rt where
  num : Int
  den : Int
deriving DecidableEq, Repr

/-- Embed an integer. -/
def Rt.ofInt (n : Int) : Rt :=
  ⟨n, 1⟩

/-- Build a fraction, flipping signs so the denominator is positive. -/
def Rt.mk2 (n d : Int) : Rt :=
  if d < 0 then ⟨-n, -d⟩ else ⟨n, d⟩

/-- Fraction addition. -/
def Rt.add (a b : Rt) : Rt :=
  ⟨a.num * b.den + b.num * a.den, a.den * b.den⟩

/-- Fraction subtraction. -/
def Rt.sub (a b : Rt) : Rt :=
  ⟨a.num * b.den - b.num * a.den, a.den * b.den⟩

/-- Fraction multiplication. -/
def Rt.mul (a b : Rt) : Rt :=
  ⟨a.num * b.num, a.den * b.den⟩

/-- Fraction division. -/
def Rt.div (a b : Rt) : Rt :=
  Rt.mk2 (a.num * b.den) (a.den * b.num)

/-- Zero test, valid for positive denominators. -/
def Rt.isZero (a : Rt) : Bool :=
  a.num == 0

/-- Strict order, valid for positive denominators. -/
def Rt.ltB (a b : Rt) : Bool :=
  decide (a.num * b.den < b.num * a.den)

/-- Floor to an integer, valid for positive denominators. -/
def Rt.floorI (a : Rt) : Int :=
  a.num.fdiv a.den

/-- Coefficients of the projective map from the unit square to a
quadrilateral: (u, v) maps to ((a u + b v + c) / (g u + h v + 1),
(d u + e v + f) / (g u + h v + 1)). -/
structure Homog where
  a : Rt
  b : Rt
  c : Rt
  d : Rt
  e : Rt
  f : Rt
  g : Rt
  h : Rt
deriving DecidableEq, Repr

/-- Modelled from the spec: solve the four point correspondence mapping
the unit square corners (0,0), (1,0), (1,1), (0,1) to the candidate
corners in order; none when the system is singular (spec sections 4.4
and 7, numeric degeneracy). -/
def squareToQuad (q : Quad) : Option Homog :=
  let x0 := q.a.x
  let y0 := q.a.y
  let x1 := q.b.x
  let y1 := q.b.y
  let x2 := q.c.x
  let y2 := q.c.y
  let x3 := q.d.x
  let y3 := q.d.y
  let sx := x0 - x1 + x2 - x3
  let sy := y0 - y1 + y2 - y3
  if sx == 0 && sy == 0 then
    some ⟨.ofInt (x1 - x0), .ofInt (x3 - x0), .ofInt x0,
          .ofInt (y1 - y0), .ofInt (y3 - y0), .ofInt y0, .ofInt 0, .ofInt 0⟩
  else
    let dx1 := x1 - x2
    let dx2 := x3 - x2
    let dy1 := y1 - y2
    let dy2 := y3 - y2
    let den := dx1 * dy2 - dy1 * dx2
    if den == 0 then none
    else
      let hg := Rt.mk2 (sx * dy2 - sy * dx2) den
      let hh := Rt.mk2 (dx1 * sy - dy1 * sx) den
      some ⟨(Rt.ofInt (x1 - x0)).add (hg.mul (.ofInt x1)),
            (Rt.ofInt (x3 - x0)).add (hh.mul (.ofInt x3)),
            .ofInt x0,
            (Rt.ofInt (y1 - y0)).add (hg.mul (.ofInt y1)),
            (Rt.ofInt (y3 - y0)).add (hh.mul (.ofInt y3)),
            .ofInt y0, hg, hh⟩

/-- Apply the projective map; none when the denominator vanishes. -/
def mapPoint (m : Homog) (u v : Rt) : Option (Rt × Rt) :=
  let den := ((m.g.mul u).add (m.h.mul v)).add (.ofInt 1)
  if den.isZero then none
  else
    some ((((m.a.mul u).add (m.b.mul v)).add m.c).div den,
          (((m.d.mul u).add (m.e.mul v)).add m.f).div den)

/-- Pixel lookup in the grayscale raster, white outside the bounds. -/
def pixAt (g : Gray) (x y : Int) : Nat :=
  if x < 0 || y < 0 then 255
  else (g.rows.getD y.toNat []).getD x.toNat 255

/-- Bilinear sample of the grayscale raster at rational coordinates. -/
def bilinearAt (g : Gray) (xr yr : Rt) : Rt :=
  let x0 := xr.floorI
  let y0 := yr.floorI
  let fx := xr.sub (.ofInt x0)
  let fy := yr.sub (.ofInt y0)
  let cx := (Rt.ofInt 1).sub fx
  let cy := (Rt.ofInt 1).sub fy
  (((cx.mul cy).mul (.ofInt (pixAt g x0 y0))).add
      ((fx.mul cy).mul (.ofInt (pixAt g (x0 + 1) y0)))).add
    ((((cx.mul fy).mul (.ofInt (pixAt g x0 (y0 + 1)))).add
      ((fx.mul fy).mul (.ofInt (pixAt g (x0 + 1) (y0 + 1))))))

/-- Modelled from the spec: classify one destination cell by inverse
mapping an N by N sample pattern inside the cell to source coordinates,
bilinear sampling the grayscale raster, and taking a strict majority
vote against the global threshold 128 (spec sections 4.4 and 4.5 step 1). -/
def cellDark (g : Gray) (m : Homog) (n i j : Nat) : Option Bool :=
  let offs : List (Nat × Nat) :=
    (List.range n).flatMap fun sj => (List.range n).map fun si => (si, sj)
  (offs.mapM fun s =>
    let u : Rt := ⟨(2 * n * i + 2 * s.1 + 1 : Nat), (14 * n : Nat)⟩
    let v : Rt := ⟨(2 * n * j + 2 * s.2 + 1 : Nat), (14 * n : Nat)⟩
    (mapPoint m u v).map fun xy => bilinearAt g xy.1 xy.2).map
    fun vals => n * n < 2 * vals.countP fun val => val.ltB (.ofInt 128)

/-- Modelled from the spec: resample a candidate into the 7 by 7 boolean
cell grid (spec section 4.4). -/
def sampleGrid (g : Gray) (m : Homog) (n : Nat) : Option (List (List Bool)) :=
  (List.range 7).mapM fun j => (List.range 7).mapM fun i => cellDark g m n i j

/-- One step of the corner cycle, shifting every corner one place
forward, used once per detected quarter turn. -/
def rotQ1 (q : Quad) : Quad :=
  ⟨q.d, q.a, q.b, q.c⟩

/-- Reorder the corner cycle by the detected rotation index so that the
first corner is the canonical first corner of the marker (spec section
4.5 step 5). -/
def rotateQuad : Nat → Quad → Quad
  | 0, q => q
  | k + 1, q => rotateQuad k (rotQ1 q)

/-- Modelled from the spec: warp a candidate, decode the cell grid, and
build the Marker with the corners reordered by the rotation index,
keeping the candidate perimeter for deduplication (spec sections 4.4 to
4.6). -/
def decodeCandidate (cfg : Config) (g : Gray) (cand : Candidate) :
    Option (Marker × Nat) :=
  (squareToQuad cand.corners).bind fun m =>
    (sampleGrid g m cfg.cellSamples).bind fun grid =>
      (decodeGrid grid).map fun ir =>
        ({ id := ir.1, corners := rotateQuad ir.2 cand.corners }, cand.perimeter)

/-! Detector orchestration (spec section 4.6). -/

/-- Squared corner distance within the duplicate epsilon. -/
def closePt (eps : Nat) (p q : Pt) : Bool :=
  decide ((p.x - q.x) ^ 2 + (p.y - q.y) ^ 2 ≤ ((eps : Int)) ^ 2)

/-- Corner sets nearly coincident: every corner within the duplicate
epsilon of the corresponding corner. -/
def closeQuad (eps : Nat) (q1 q2 : Quad) : Bool :=
  closePt eps q1.a q2.a && closePt eps q1.b q2.b
    && closePt eps q1.c q2.c && closePt eps q1.d q2.d

/-- Two accepted markers are duplicates of one another: same id and a
nearly coincident corner set. -/
def duplicateOf (eps : Nat) (a b : Marker × Nat) : Bool :=
  a.1.id == b.1.id && closeQuad eps a.1.corners b.1.corners

/-- Modelled from the spec: insert one accepted marker into the
deduplicated list, keeping only one of any two duplicates.  When an
already kept duplicate has at least the new perimeter, the new marker is
dropped; otherwise the new marker supplants every kept duplicate, all of
strictly smaller perimeter, so the larger perimeter candidate is always
the one preferred (spec section 4.6). -/
def dedupInsert (eps : Nat) (acc : List (Marker × Nat)) (m : Marker × Nat) :
    List (Marker × Nat) :=
  if acc.any fun e => duplicateOf eps e m && decide (m.2 ≤ e.2) then acc
  else (acc.filter fun e => !duplicateOf eps e m) ++ [m]

/-- Deduplication pass over the accepted markers. -/
def dedup (eps : Nat) (ms : List (Marker × Nat)) : List (Marker × Nat) :=
  ms.foldl (dedupInsert eps) []

/-- Modelled from the spec: the accepted markers of one detection cycle
before deduplication, with their perimeters: binarize, trace contours,
approximate and filter candidates, warp and decode (spec section 4.6). -/
def acceptedMarkers (cfg : Config) (f : Frame) : List (Marker × Nat) :=
  let g := toGray f
  let bin := binarize cfg g
  ((findContours cfg bin f.width f.height).filterMap
    (toCandidate cfg f.width f.height)).filterMap (decodeCandidate cfg g)

/-- Detection result list of a structurally valid frame. -/
def detectList (cfg : Config) (f : Frame) : List Marker :=
  (dedup cfg.duplicateCornerEpsilonPx (acceptedMarkers cfg f)).map (·.1)

/-- Modelled from the spec: the public contract of the orchestrator;
structurally malformed frames fail fast with the InvalidFrame signal,
valid frames produce the deduplicated marker list (spec sections 4.6 and
7). -/
def detect (cfg : Config) (f : Frame) : Except InvalidFrame (List Marker) :=
  if f.validShape then .ok (detectList cfg f) else .error .signal

/-! Synthetic test frames (spec section 8, testable properties). -/

/-- Build a 1-channel frame of the given size from a darkness predicate:
dark pixels get value 0, light pixels 255. -/
def mkFrame (w h : Nat) (dark : Nat → Nat → Bool) : Frame :=
  { width := w, height := h, channels := 1
    data := (List.range (w * h)).map fun k =>
      if dark (k % w) (k / w) then 0 else 255 }

/-- Darkness predicate of a cell grid rendered with its top left corner
at (x0, y0) and square cells of k pixels. -/
def gridDark (g : List (List Bool)) (x0 y0 k : Nat) (x y : Nat) : Bool :=
  decide (x0 ≤ x) && decide (x < x0 + 7 * k) && decide (y0 ≤ y)
    && decide (y < y0 + 7 * k) && cellAt g ((y - y0) / k) ((x - x0) / k)

/-- Synthetic 18 by 18 frame with the marker of the given id rendered at
position (2, 2) with 2 pixel cells, physically rotated clockwise rot
quarter turns. -/
def markerFrame (id rot : Nat) : Frame :=
  mkFrame 18 18 (gridDark (Nat.iterate rotGrid rot (encodeGrid id)) 2 2 2)

/-- Darkness predicate of the concentric double border frame: the marker
of id 114 at (3, 3) with an extra one pixel black square ring around it,
separated by a white gap, corners (1, 1) and (25, 25). -/
def ringDark (x y : Nat) : Bool :=
  (decide (1 ≤ x) && decide (x ≤ 25) && decide (1 ≤ y) && decide (y ≤ 25)
      && (x == 1 || x == 25 || y == 1 || y == 25))
    || gridDark (encodeGrid 114) 3 3 3 x y

/-- Synthetic 29 by 29 frame with concentric outer and inner square
borders of one printed marker. -/
def ringFrame : Frame :=
  mkFrame 27 27 ringDark

/-- A uniform (blank) frame where every pixel has the one value v. -/
def uniformFrame (w h v : Nat) : Frame :=
  { width := w, height := h, channels := 1, data := List.replicate (w * h) v }

/-! Detector instance state (spec sections 3 and 5): the only state a
detector instance holds is its read-only configuration. -/

/-- Modelled from the spec: a Detector instance; no stage retains state
between invocations except the process wide read-only configuration
(spec section 3, invariant across the pipeline). -/
structure DetectorInstance where
  cfg : Config
deriving DecidableEq, Repr

/-- Construction of the detector instance (new AR.Detector() in the
component constructor). -/
def DetectorInstance.init : DetectorInstance :=
  { cfg := defaultConfig }

/-- Modelled from the spec: one detect call on an instance returns the
result and the instance state after the call. -/
def detectCall (d : DetectorInstance) (f : Frame) :
    Except InvalidFrame (List Marker) × DetectorInstance :=
  (detect d.cfg f, d)

end Aruco

/-! The App state machine of src/index.js. -/

namespace App

/-- The component state of the App class: the status string and the
camera handle (opaque, modelled as a number). -/
structure AppState where
  status : String
  camera : Option Nat
deriving DecidableEq, Repr

/-- The initial state set in the App constructor. -/
def initialState : AppState :=
  { status := "init", camera := none }

/-- The onCameraSuccess callback: stores the camera, status unchanged. -/
def onCameraSuccess (s : AppState) (cam : Nat) : AppState :=
  { s with camera := some cam }

/-- The onDetect callback: sets the status to catch. -/
def onDetect (s : AppState) : AppState :=
  { s with status := "catch" }

/-- The onCameraControl callback: sets the status to detect. -/
def onCameraControl (s : AppState) : AppState :=
  { s with status := "detect" }

/-- States reachable from the initial state by the three callbacks. -/
inductive Reachable : AppState → Prop
  | init : Reachable initialState
  | cameraSuccess (s : AppState) (cam : Nat) :
      Reachable s → Reachable (onCameraSuccess s cam)
  | detectEvent (s : AppState) : Reachable s → Reachable (onDetect s)
  | cameraControl (s : AppState) : Reachable s → Reachable (onCameraControl s)

end App

/-! The canvas drawing of the detector component (src of part_000):
drawCorners, draw2DImg and tick, modelled as the list of context
commands they issue. -/

namespace Canvas

open Aruco

/-- A canvas context command. -/
inductive Cmd where
  | raf : Cmd
  | setLineWidth : Nat → Cmd
  | setStrokeStyle : String → Cmd
  | beginPath : Cmd
  | moveTo : Pt → Cmd
  | lineTo : Pt → Cmd
  | stroke : Cmd
  | closePath : Cmd
  | strokeRect : Int → Int → Int → Int → Cmd
  | drawImageCamera : Nat → Nat → Nat → Nat → Cmd
  | getImageData : Cmd
  | saveCtx : Cmd
  | drawImageImg : Pt → Cmd
  | restoreCtx : Cmd
deriving DecidableEq, Repr

/-- Commands issued by the drawCorners loop body for one marker, from
the component source: stroke style red, begin path, for each corner
index j a moveTo of corner j and a lineTo of corner (j+1) mod length,
stroke, close path, stroke style green, and the 4 by 4 rectangle around
corner 0. -/
def drawCornersMarker (corners : List Pt) : List Cmd :=
  [.setStrokeStyle "red", .beginPath]
    ++ ((List.range corners.length).flatMap fun j =>
        [.moveTo (corners.getD j ⟨0, 0⟩),
         .lineTo (corners.getD ((j + 1) % corners.length) ⟨0, 0⟩)])
    ++ [.stroke, .closePath, .setStrokeStyle "green",
        .strokeRect ((corners.headD ⟨0, 0⟩).x - 2) ((corners.headD ⟨0, 0⟩).y - 2) 4 4]

/-- Commands issued by drawCorners: line width once, then the loop over
the markers. -/
def drawCornersCmds (markers : List (List Pt)) : List Cmd :=
  [.setLineWidth 2] ++ markers.flatMap drawCornersMarker

/-- Commands issued by draw2DImg: per marker a save, a drawImage of the
overlay image at corner 0, and a restore. -/
def draw2DImgCmds (markers : List (List Pt)) : List Cmd :=
  markers.flatMap fun c => [.saveCtx, .drawImageImg (c.headD ⟨0, 0⟩), .restoreCtx]

/-- Commands issued by snapshot: draw the camera frame onto the canvas
and grab the image data. -/
def snapshotCmds (w h : Nat) : List Cmd :=
  [.drawImageCamera 0 0 w h, .getImageData]

/-- Corner list of a detected marker as the component sees it. -/
def cornerList (m : Marker) : List Pt :=
  [m.corners.a, m.corners.b, m.corners.c, m.corners.d]

/-- Marker corner lists from a detect result, none on failure. -/
def markersFrom (r : Except InvalidFrame (List Marker)) : List (List Pt) :=
  match r with
  | .ok ms => ms.map cornerList
  | .error _ => []

/-- Commands issued by one tick of the detector component: schedule the
next animation frame, snapshot the camera, detect, and only when at
least one marker was found draw the overlay image and the corners. -/
def tickCmds (cfg : Config) (f : Frame) : List Cmd :=
  let markers := markersFrom (detect cfg f)
  [Cmd.raf] ++ snapshotCmds f.width f.height
    ++ (if 0 < markers.length then draw2DImgCmds markers ++ drawCornersCmds markers
        else [])

/-- The moveTo and lineTo pairs of a command list, in order. -/
def segsOf : List Cmd → List (Pt × Pt)
  | .moveTo a :: .lineTo b :: rest => (a, b) :: segsOf rest
  | _ :: rest => segsOf rest
  | [] => []

/-- The stroked rectangles of a command list, in order. -/
def rectsOf : List Cmd → List (Int × Int × Int × Int)
  | .strokeRect x y w h :: rest => (x, y, w, h) :: rectsOf rest
  | _ :: rest => rectsOf rest
  | [] => []

end Canvas

/-! Theorems. -/

open Aruco

/-- C3: for every structurally malformed input raster (buffer length
inconsistent with width times height times channels, or wrong channel
count), detect raises the InvalidFrame signal and returns no markers. -/
theorem detect_invalid_frame_raises (cfg : Config) (f : Frame)
    (h : f.validShape = false) :
    detect cfg f = .error .signal := by
  simp [detect, h]

/-- Witness for C3 at a concrete malformed frame: a 2 by 2 single
channel frame whose buffer holds only 3 bytes. -/
theorem detect_invalid_frame_raises_witness :
    (Frame.mk 2 2 1 [7, 7, 7]).validShape = false ∧
      detect defaultConfig (Frame.mk 2 2 1 [7, 7, 7]) = .error .signal :=
  ⟨by decide, detect_invalid_frame_raises defaultConfig _ (by decide)⟩

/-- C7: detect is deterministic and stateless; a call leaves the
instance unchanged, and a second call on the identical frame through the
state left by the first call returns the same list. -/
theorem detect_stateless_deterministic (d : DetectorInstance) (f : Frame) :
    (detectCall d f).2 = d ∧
      (detectCall (detectCall d f).2 f).1 = (detectCall d f).1 :=
  ⟨rfl, rfl⟩

/-- Status invariant of the App state machine: every reachable state has
status init, detect or catch. -/
theorem reachable_status (s : App.AppState) (h : App.Reachable s) :
    s.status = "init" ∨ s.status = "detect" ∨ s.status = "catch" := by
  induction h with
  | init => exact Or.inl rfl
  | cameraSuccess s cam _ ih => simpa [App.onCameraSuccess] using ih
  | detectEvent s _ _ => simp [App.onDetect]
  | cameraControl s _ _ => simp [App.onCameraControl]

/-- C8 counterexample: the claim asserts the battle screen is reachable
by some sequence of the callback transitions, but no callback ever sets
the status to battle. -/
theorem app_battle_unreachable_counterexample :
    ¬ ∃ s, App.Reachable s ∧ s.status = "battle" := by
  rintro ⟨s, hr, hb⟩
  rcases reachable_status s hr with h | h | h <;> rw [hb] at h <;> simp at h

/-- C8 amended: starting from init the status always stays within the
four screen names, the detect and catch screens are both reachable, and
the battle screen is not reachable by the callback transitions. -/
theorem app_state_machine :
    (∀ s, App.Reachable s → s.status ∈ ["init", "detect", "catch", "battle"]) ∧
      (∃ s, App.Reachable s ∧ s.status = "detect") ∧
      (∃ s, App.Reachable s ∧ s.status = "catch") ∧
      ¬ ∃ s, App.Reachable s ∧ s.status = "battle" := by
  refine ⟨fun s hr => ?_, ⟨App.onCameraControl App.initialState,
    App.Reachable.cameraControl _ App.Reachable.init, rfl⟩,
    ⟨App.onDetect App.initialState,
      App.Reachable.detectEvent _ App.Reachable.init, rfl⟩, ?_⟩
  · rcases reachable_status s hr with h | h | h <;> simp [h]
  · rintro ⟨s, hr, hb⟩
    rcases reachable_status s hr with h | h | h <;> rw [hb] at h <;> simp at h

/-- Witness for C8: the invariant applied to the initial state. -/
theorem app_state_machine_witness :
    App.initialState.status ∈ ["init", "detect", "catch", "battle"] :=
  app_state_machine.1 App.initialState App.Reachable.init

/-- The moveTo lineTo pair stream of the corner loop: the flat mapped
pairs turn into one segment per index, and further commands follow. -/
theorem segsOf_pairs (fa fb : Nat → Pt) (l : List Nat) (rest : List Canvas.Cmd) :
    Canvas.segsOf ((l.flatMap fun j => [.moveTo (fa j), .lineTo (fb j)]) ++ rest)
      = (l.map fun j => (fa j, fb j)) ++ Canvas.segsOf rest := by
  induction l with
  | nil => rfl
  | cons x xs ih => simpa [Canvas.segsOf] using ih

/-- The corner loop emits no rectangles. -/
theorem rectsOf_pairs (fa fb : Nat → Pt) (l : List Nat) (rest : List Canvas.Cmd) :
    Canvas.rectsOf ((l.flatMap fun j => [.moveTo (fa j), .lineTo (fb j)]) ++ rest)
      = Canvas.rectsOf rest := by
  induction l with
  | nil => rfl
  | cons x xs ih => simpa [Canvas.rectsOf] using ih

/-- C9: for every corner list, drawCorners strokes the closed polygon
over all corners, one edge from corner j to corner (j+1) mod length for
every index j, and marks exactly one 4 by 4 rectangle, placed around
corner 0. -/
theorem drawCorners_closed_polygon (corners : List Pt) :
    Canvas.segsOf (Canvas.drawCornersMarker corners)
        = ((List.range corners.length).map fun j =>
            (corners.getD j ⟨0, 0⟩, corners.getD ((j + 1) % corners.length) ⟨0, 0⟩))
      ∧ (Canvas.segsOf (Canvas.drawCornersMarker corners)).length = corners.length
      ∧ Canvas.rectsOf (Canvas.drawCornersMarker corners)
          = [((corners.headD ⟨0, 0⟩).x - 2, (corners.headD ⟨0, 0⟩).y - 2, 4, 4)] := by
  have hs : ∀ X, Canvas.segsOf (Canvas.Cmd.setStrokeStyle "red" :: Canvas.Cmd.beginPath :: X)
      = Canvas.segsOf X := fun X => rfl
  have hr : ∀ X, Canvas.rectsOf (Canvas.Cmd.setStrokeStyle "red" :: Canvas.Cmd.beginPath :: X)
      = Canvas.rectsOf X := fun X => rfl
  have e1 : Canvas.segsOf (Canvas.drawCornersMarker corners)
      = ((List.range corners.length).map fun j =>
          (corners.getD j ⟨0, 0⟩, corners.getD ((j + 1) % corners.length) ⟨0, 0⟩)) := by
    unfold Canvas.drawCornersMarker
    simp only [List.cons_append, List.nil_append, List.append_assoc]
    rw [hs, segsOf_pairs]
    simp [Canvas.segsOf]
  have e2 : Canvas.rectsOf (Canvas.drawCornersMarker corners)
      = [((corners.headD ⟨0, 0⟩).x - 2, (corners.headD ⟨0, 0⟩).y - 2, 4, 4)] := by
    unfold Canvas.drawCornersMarker
    simp only [List.cons_append, List.nil_append, List.append_assoc]
    rw [hr, rectsOf_pairs]
    simp [Canvas.rectsOf]
  exact ⟨e1, by rw [e1]; simp, e2⟩

/-- C10: when detect returns the empty marker list, a tick issues only
the scheduling and the snapshot commands: no overlay image and no corner
stroking reach the canvas. -/
theorem tick_empty_no_overlay (cfg : Config) (f : Frame)
    (h : detect cfg f = .ok []) :
    Canvas.tickCmds cfg f = [Canvas.Cmd.raf] ++ Canvas.snapshotCmds f.width f.height := by
  simp [Canvas.tickCmds, Canvas.markersFrom, h]

/-- Rendering a bit grid to a grayscale cell image and re-binarizing the
cells recovers the grid: the decoding pipeline on the rendered image is
the grid decoder. -/
theorem decodeCellImage_render (g : List (List Bool)) :
    decodeCellImage (renderGridImage g) = decodeGrid g := by
  unfold decodeCellImage renderGridImage
  congr 1
  rw [List.map_map]
  have hcell : ((fun v : Nat => decide (v < 128))
      ∘ fun b : Bool => if b then 0 else 255) = fun b => b := by
    funext b
    cases b <;> rfl
  have hrow : ((fun r : List Nat => r.map fun v => decide (v < 128))
      ∘ fun r : List Bool => r.map fun b => if b then 0 else 255)
      = fun r : List Bool => r := by
    funext r
    show (r.map fun b => if b then (0 : Nat) else 255).map
        (fun v => decide (v < 128)) = r
    rw [List.map_map, hcell]
    exact List.map_id r
  rw [hrow]
  exact List.map_id g

/-- Decoding a valid code word row recovers its two data bits. -/
theorem rowBits_codeword (v : Nat) (h : v < 4) :
    rowBits (codeWords.getD v []) = some v := by
  rcases (by omega : v = 0 ∨ v = 1 ∨ v = 2 ∨ v = 3) with h1 | h1 | h1 | h1 <;>
    subst h1 <;> rfl

/-- Every code word is a five cell row. -/
theorem codeword_shape (v : Nat) (h : v < 4) :
    ∃ b1 b2 b3 b4 b5, codeWords.getD v [] = [b1, b2, b3, b4, b5] := by
  rcases (by omega : v = 0 ∨ v = 1 ∨ v = 2 ∨ v = 3) with h1 | h1 | h1 | h1 <;>
    subst h1 <;> exact ⟨_, _, _, _, _, rfl⟩

/-- C4: encode then decode is the identity on ids over the whole
dictionary: rendering the bit pattern of any of the 1024 dictionary
entries into a synthetic cell image and decoding it recovers the id,
with rotation index 0. -/
theorem dictionary_roundtrip :
    ∀ id, id < 1024 →
      decodeCellImage (renderGridImage (encodeGrid id)) = some (id, 0) := by
  intro id hid
  rw [decodeCellImage_render]
  have h0 : (id >>> 8) % 4 < 4 := Nat.mod_lt _ (by omega)
  have h1 : (id >>> 6) % 4 < 4 := Nat.mod_lt _ (by omega)
  have h2 : (id >>> 4) % 4 < 4 := Nat.mod_lt _ (by omega)
  have h3 : (id >>> 2) % 4 < 4 := Nat.mod_lt _ (by omega)
  have h4 : (id >>> 0) % 4 < 4 := Nat.mod_lt _ (by omega)
  obtain ⟨a1, a2, a3, a4, a5, ha⟩ := codeword_shape _ h0
  obtain ⟨b1, b2, b3, b4, b5, hb⟩ := codeword_shape _ h1
  obtain ⟨c1, c2, c3, c4, c5, hc⟩ := codeword_shape _ h2
  obtain ⟨d1, d2, d3, d4, d5, hd⟩ := codeword_shape _ h3
  obtain ⟨e1, e2, e3, e4, e5, he⟩ := codeword_shape _ h4
  have hinner : encodeInner id =
      [codeWords.getD ((id >>> 8) % 4) [], codeWords.getD ((id >>> 6) % 4) [],
       codeWords.getD ((id >>> 4) % 4) [], codeWords.getD ((id >>> 2) % 4) [],
       codeWords.getD ((id >>> 0) % 4) []] := rfl
  have hgrid : encodeGrid id =
      [List.replicate 7 true,
       [true, a1, a2, a3, a4, a5, true],
       [true, b1, b2, b3, b4, b5, true],
       [true, c1, c2, c3, c4, c5, true],
       [true, d1, d2, d3, d4, d5, true],
       [true, e1, e2, e3, e4, e5, true],
       List.replicate 7 true] := by
    simp only [encodeGrid, hinner, ha, hb, hc, hd, he]
    rfl
  rw [hgrid]
  have hrowa : rowBits [a1, a2, a3, a4, a5] = some ((id >>> 8) % 4) := by
    rw [← ha]; exact rowBits_codeword _ h0
  have hrowb : rowBits [b1, b2, b3, b4, b5] = some ((id >>> 6) % 4) := by
    rw [← hb]; exact rowBits_codeword _ h1
  have hrowc : rowBits [c1, c2, c3, c4, c5] = some ((id >>> 4) % 4) := by
    rw [← hc]; exact rowBits_codeword _ h2
  have hrowd : rowBits [d1, d2, d3, d4, d5] = some ((id >>> 2) % 4) := by
    rw [← hd]; exact rowBits_codeword _ h3
  have hrowe : rowBits [e1, e2, e3, e4, e5] = some ((id >>> 0) % 4) := by
    rw [← he]; exact rowBits_codeword _ h4
  have hdec : decodeInner
      [[a1, a2, a3, a4, a5], [b1, b2, b3, b4, b5], [c1, c2, c3, c4, c5],
       [d1, d2, d3, d4, d5], [e1, e2, e3, e4, e5]]
      = some (List.foldl (fun acc v => acc * 4 + v) 0
          [(id >>> 8) % 4, (id >>> 6) % 4, (id >>> 4) % 4,
           (id >>> 2) % 4, (id >>> 0) % 4]) := by
    show (List.mapM rowBits
        [[a1, a2, a3, a4, a5], [b1, b2, b3, b4, b5], [c1, c2, c3, c4, c5],
         [d1, d2, d3, d4, d5], [e1, e2, e3, e4, e5]]).map
        (fun l => l.foldl (fun acc v => acc * 4 + v) 0) = _
    simp only [List.mapM_cons, List.mapM_nil, hrowa, hrowb, hrowc, hrowd, hrowe,
      Option.bind_eq_bind, Option.some_bind, Option.pure_def, Option.map_some']
  have harith : List.foldl (fun acc v => acc * 4 + v) 0
      [(id >>> 8) % 4, (id >>> 6) % 4, (id >>> 4) % 4,
       (id >>> 2) % 4, (id >>> 0) % 4] = id := by
    show ((((0 * 4 + (id >>> 8) % 4) * 4 + (id >>> 6) % 4) * 4
        + (id >>> 4) % 4) * 4 + (id >>> 2) % 4) * 4 + (id >>> 0) % 4 = id
    simp only [Nat.shiftRight_eq_div_pow]
    norm_num
    omega
  have hfinal : tryRotations
      [[a1, a2, a3, a4, a5], [b1, b2, b3, b4, b5], [c1, c2, c3, c4, c5],
       [d1, d2, d3, d4, d5], [e1, e2, e3, e4, e5]] = some (id, 0) := by
    unfold tryRotations
    rw [hdec, harith]
  show decodeGrid _ = some (id, 0)
  unfold decodeGrid
  rw [if_pos]
  · show tryRotations
        [[a1, a2, a3, a4, a5], [b1, b2, b3, b4, b5], [c1, c2, c3, c4, c5],
         [d1, d2, d3, d4, d5], [e1, e2, e3, e4, e5]] = some (id, 0)
    exact hfinal
  · rfl

/-- Witness for C4 at the concrete id 114. -/
theorem dictionary_roundtrip_witness :
    114 < 1024 ∧
      decodeCellImage (renderGridImage (encodeGrid 114)) = some (114, 0) :=
  ⟨by decide, dictionary_roundtrip 114 (by decide)⟩

set_option maxRecDepth 400000 in
set_option maxHeartbeats 4000000 in
/-- Kernel evaluation of the accepted markers of the synthetic frame with
the marker of id 114 at rotate 0. -/
theorem accepted_m0 :
    acceptedMarkers defaultConfig (markerFrame 114 0)
      = [(⟨114, ⟨⟨2, 2⟩, ⟨15, 2⟩, ⟨15, 15⟩, ⟨2, 15⟩⟩⟩, 52)] := by
  decide

set_option maxRecDepth 400000 in
set_option maxHeartbeats 4000000 in
/-- Kernel evaluation of the accepted markers of the concentric double
border frame: the outer border trace and the inner marker trace both
decode to id 114 with nearly coincident corners. -/
theorem accepted_ring :
    acceptedMarkers defaultConfig ringFrame
      = [(⟨114, ⟨⟨1, 1⟩, ⟨25, 1⟩, ⟨25, 25⟩, ⟨1, 25⟩⟩⟩, 96),
         (⟨114, ⟨⟨3, 3⟩, ⟨23, 3⟩, ⟨23, 23⟩, ⟨3, 23⟩⟩⟩, 80)] := by
  decide

/-- The marker frames are structurally valid. -/
theorem markerFrame_validShape (id rot : Nat) :
    (markerFrame id rot).validShape = true := by
  simp [markerFrame, mkFrame, Frame.validShape]

/-- The ring frame is structurally valid. -/
theorem ringFrame_validShape : ringFrame.validShape = true := by
  simp [ringFrame, mkFrame, Frame.validShape]

/-- Detection on a valid frame is the deduplicated list. -/
theorem detect_of_valid (cfg : Config) (f : Frame) (h : f.validShape = true) :
    detect cfg f = .ok (detectList cfg f) := by
  simp [detect, h]

/-- Deduplication keeps a single accepted marker unchanged. -/
theorem dedup_single (eps : Nat) (m : Marker × Nat) :
    dedup eps [m] = [m] := rfl

/-- Deduplication of exactly two accepted markers with the same id and
nearly coincident corner sets keeps only one: the larger perimeter wins
(the first one on a tie). -/
theorem dedup_pair (eps : Nat) (m1 m2 : Marker) (p1 p2 : Nat)
    (hid : m1.id = m2.id)
    (hclose : closeQuad eps m1.corners m2.corners = true) :
    dedup eps [(m1, p1), (m2, p2)]
      = [if p1 < p2 then (m2, p2) else (m1, p1)] := by
  have hdup : duplicateOf eps (m1, p1) (m2, p2) = true := by
    simp [duplicateOf, hid, hclose]
  show dedupInsert eps (dedupInsert eps [] (m1, p1)) (m2, p2) = _
  have h1 : dedupInsert eps [] (m1, p1) = [(m1, p1)] := rfl
  rw [h1]
  by_cases hp : p1 < p2
  · have hcond : ([(m1, p1)].any fun e =>
        duplicateOf eps e (m2, p2) && decide ((m2, p2).2 ≤ e.2)) = false := by
      simp [List.any, hdup]
      omega
    unfold dedupInsert
    rw [if_neg (by rw [hcond]; exact Bool.false_ne_true)]
    simp [List.filter, hdup, hp]
  · have hcond : ([(m1, p1)].any fun e =>
        duplicateOf eps e (m2, p2) && decide ((m2, p2).2 ≤ e.2)) = true := by
      simp [List.any, hdup]
      omega
    unfold dedupInsert
    rw [if_pos hcond]
    simp [hp]

/-- Inserting one accepted marker keeps the deduplicated list free of
duplicate pairs: a newly appended marker first removes every kept
duplicate of itself. -/
theorem pairwise_dedupInsert (eps : Nat) (acc : List (Marker × Nat))
    (m : Marker × Nat)
    (h : acc.Pairwise fun a b => duplicateOf eps a b = false) :
    (dedupInsert eps acc m).Pairwise fun a b => duplicateOf eps a b = false := by
  unfold dedupInsert
  by_cases hc : (acc.any fun e => duplicateOf eps e m && decide (m.2 ≤ e.2)) = true
  · rw [if_pos hc]
    exact h
  · rw [if_neg hc]
    refine List.pairwise_append.2
      ⟨h.sublist (List.filter_sublist acc), List.pairwise_singleton _ _, ?_⟩
    intro x hx y hy
    rw [List.mem_singleton] at hy
    subst hy
    have hfx := List.of_mem_filter hx
    simpa using hfx

/-- The deduplicated list never holds two markers with the same id and
nearly coincident corner sets, whatever the accepted list was. -/
theorem dedup_pairwise (eps : Nat) (l : List (Marker × Nat)) :
    (dedup eps l).Pairwise fun a b => duplicateOf eps a b = false := by
  have haux : ∀ (l' : List (Marker × Nat)) (acc : List (Marker × Nat)),
      acc.Pairwise (fun a b => duplicateOf eps a b = false) →
      (l'.foldl (dedupInsert eps) acc).Pairwise
        fun a b => duplicateOf eps a b = false := by
    intro l'
    induction l' with
    | nil => intro acc h; exact h
    | cons hd tl ih => intro acc h; exact ih _ (pairwise_dedupInsert eps acc hd h)
  exact haux l [] List.Pairwise.nil

/-- C6: the returned list of any detect call never contains two markers
with the same id and nearly coincident corner sets, so whenever two
accepted markers are such duplicates the output keeps at most one of
them; when the accepted markers are exactly two duplicates the one kept
is the one with the larger perimeter; and the concentric double border
frame concretely yields exactly one Marker, the outer larger perimeter
trace, not two. -/
theorem dedup_same_id_close :
    (∀ (cfg : Config) (f : Frame) (ms : List Marker), detect cfg f = .ok ms →
        ms.Pairwise fun a b =>
          ¬(a.id = b.id
            ∧ closeQuad cfg.duplicateCornerEpsilonPx a.corners b.corners = true))
      ∧ (∀ (cfg : Config) (f : Frame) (m1 m2 : Marker) (p1 p2 : Nat),
          acceptedMarkers cfg f = [(m1, p1), (m2, p2)] →
          m1.id = m2.id →
          closeQuad cfg.duplicateCornerEpsilonPx m1.corners m2.corners = true →
          detectList cfg f = [if p1 < p2 then m2 else m1])
      ∧ detect defaultConfig ringFrame
          = .ok [⟨114, ⟨⟨1, 1⟩, ⟨25, 1⟩, ⟨25, 25⟩, ⟨1, 25⟩⟩⟩] := by
  refine ⟨?_, ?_, ?_⟩
  · intro cfg f ms hdet
    have hms : ms = detectList cfg f := by
      unfold detect at hdet
      split at hdet
      · exact (Except.ok.injEq _ _ ▸ hdet.symm : _)
      · exact absurd hdet (by simp)
    subst hms
    unfold detectList
    refine List.Pairwise.map _ ?_
      (dedup_pairwise cfg.duplicateCornerEpsilonPx (acceptedMarkers cfg f))
    intro a b hfalse hcontra
    rcases hcontra with ⟨h1, h2⟩
    simp [duplicateOf, h1, h2] at hfalse
  · intro cfg f m1 m2 p1 p2 hacc hid hclose
    rw [detectList, hacc, dedup_pair _ _ _ _ _ hid hclose]
    by_cases hp : p1 < p2 <;> simp [hp]
  · rw [detect_of_valid _ _ ringFrame_validShape]
    rw [detectList, accepted_ring,
      dedup_pair defaultConfig.duplicateCornerEpsilonPx
        ⟨114, ⟨⟨1, 1⟩, ⟨25, 1⟩, ⟨25, 25⟩, ⟨1, 25⟩⟩⟩
        ⟨114, ⟨⟨3, 3⟩, ⟨23, 3⟩, ⟨23, 23⟩, ⟨3, 23⟩⟩⟩ 96 80 rfl (by decide)]
    simp

/-- Witness for C6: the deduplication contract applied to the concrete
accepted markers of the concentric frame. -/
theorem dedup_same_id_close_witness :
    detectList defaultConfig ringFrame
      = [if 96 < 80 then (⟨114, ⟨⟨3, 3⟩, ⟨23, 3⟩, ⟨23, 23⟩, ⟨3, 23⟩⟩⟩ : Marker)
         else ⟨114, ⟨⟨1, 1⟩, ⟨25, 1⟩, ⟨25, 25⟩, ⟨1, 25⟩⟩⟩] :=
  dedup_same_id_close.2.1 defaultConfig ringFrame
    ⟨114, ⟨⟨1, 1⟩, ⟨25, 1⟩, ⟨25, 25⟩, ⟨1, 25⟩⟩⟩
    ⟨114, ⟨⟨3, 3⟩, ⟨23, 3⟩, ⟨23, 23⟩, ⟨3, 23⟩⟩⟩ 96 80 accepted_ring rfl (by decide)

/-- Element of a replicate list through getD, inside the bounds. -/
theorem getD_replicate {α : Type} (n : Nat) (a d : α) (i : Nat) (h : i < n) :
    (List.replicate n a).getD i d = a := by
  induction n generalizing i with
  | zero => exact absurd h (Nat.not_lt_zero i)
  | succ n ih =>
    cases i with
    | zero => rfl
    | succ i => exact ih i (Nat.lt_of_succ_lt_succ h)

/-- The grayscale view of a uniform frame is the uniform raster. -/
theorem toGray_uniform (w h v : Nat) :
    toGray (uniformFrame w h v)
      = ⟨w, h, List.replicate h (List.replicate w v)⟩ := by
  have hrow : ∀ y ∈ List.range h,
      ((List.replicate (w * h) v).drop (y * w)).take w = List.replicate w v := by
    intro y hy
    have hy' : y < h := List.mem_range.1 hy
    rw [List.drop_replicate, List.take_replicate]
    have hle : w ≤ w * h - y * w := by
      have h1 : y * w + w ≤ w * h := by
        have h2 : (y + 1) * w ≤ h * w :=
          Nat.mul_le_mul_right w (Nat.succ_le_of_lt hy')
        calc y * w + w = (y + 1) * w := by ring
          _ ≤ h * w := h2
          _ = w * h := Nat.mul_comm h w
      omega
    rw [Nat.min_eq_left hle]
  have hmap : (List.range h).map
        (fun y => ((List.replicate (w * h) v).drop (y * w)).take w)
      = List.replicate h (List.replicate w v) := by
    calc (List.range h).map (fun y => ((List.replicate (w * h) v).drop (y * w)).take w)
        = (List.range h).map (fun _ => List.replicate w v) := List.map_congr_left hrow
      _ = List.replicate h (List.replicate w v) := by
          rw [List.map_const', List.length_range]
  unfold toGray uniformFrame
  simp only [Gray.mk.injEq, true_and, and_true, eq_self_iff_true]
  simpa using hmap

/-- Element of a range map through getD. -/
theorem getD_map_range {α : Type} (f : Nat → α) (n i : Nat) (d : α) :
    ((List.range n).map f).getD i d = if i < n then f i else d := by
  rcases Nat.lt_or_ge i n with h | h
  · rw [if_pos h, List.getD_eq_getElem?_getD, List.getElem?_map,
      List.getElem?_range h]
    rfl
  · rw [if_neg (Nat.not_lt.2 h), List.getD_eq_getElem?_getD, List.getElem?_map,
      List.getElem?_eq_none (by simpa using h)]
    rfl

/-- No pixel of a uniform raster is classified dark by the adaptive
threshold: the window mean never exceeds the pixel value. -/
theorem darkPixel_uniform (cfg : Config) (w h v x y : Nat)
    (hx : x < w) (hy : y < h) :
    darkPixel cfg ⟨w, h, List.replicate h (List.replicate w v)⟩ x y = false := by
  unfold darkPixel windowSum
  simp only [getD_replicate h (List.replicate w v) [] y hy,
    getD_replicate w v 255 x hx,
    List.drop_replicate, List.take_replicate, List.map_replicate,
    List.sum_replicate, smul_eq_mul]
  set r := cfg.adaptiveThresholdWindow
  set c := cfg.adaptiveThresholdConstant
  set m := min (x + r) (w - 1) + 1 - (x - r)
  set k := min (y + r) (h - 1) + 1 - (y - r)
  have hbound : min k (h - (y - r)) * (min m (w - (x - r)) * v) ≤ (v + c) * (m * k) := by
    calc min k (h - (y - r)) * (min m (w - (x - r)) * v)
        ≤ k * (m * v) :=
          Nat.mul_le_mul (Nat.min_le_left _ _)
            (Nat.mul_le_mul_right v (Nat.min_le_left _ _))
      _ = v * (m * k) := by ring
      _ ≤ (v + c) * (m * k) := Nat.mul_le_mul_right _ (Nat.le_add_right v c)
  simp only [decide_eq_false_iff_not]
  omega

/-- The binarized uniform raster has no dark pixel anywhere. -/
theorem darkAt_binarize_uniform (cfg : Config) (w h v : Nat) (x y : Int) :
    darkAt (binarize cfg ⟨w, h, List.replicate h (List.replicate w v)⟩) x y
      = false := by
  unfold binarize darkAt
  split
  · rfl
  · rw [getD_map_range]
    rcases Nat.lt_or_ge y.toNat h with hyh | hyh
    · rw [if_pos hyh, getD_map_range]
      rcases Nat.lt_or_ge x.toNat w with hxw | hxw
      · rw [if_pos hxw]
        exact darkPixel_uniform cfg w h v _ _ hxw hyh
      · rw [if_neg (Nat.not_lt.2 hxw)]
    · rw [if_neg (Nat.not_lt.2 hyh)]
      rfl

/-- A fold whose step never changes the state returns its start. -/
theorem foldl_id {α β : Type} (l : List β) (st : α) :
    l.foldl (fun s _ => s) st = st := by
  induction l generalizing st with
  | nil => rfl
  | cons hd tl ih => exact ih st

/-- The contour tracer finds nothing on an all light binary raster. -/
theorem findContours_of_no_dark (cfg : Config) (bin : List (List Bool))
    (w h : Nat) (hd : ∀ x y, darkAt bin x y = false) :
    findContours cfg bin w h = [] := by
  unfold findContours
  simp only [hd, Bool.false_and, Bool.if_false_left, Bool.not_true,
    if_false, Bool.false_eq_true, foldl_id]
  rfl

/-- Any uniform (blank) frame detects to the empty marker list. -/
theorem detect_uniform_blank (cfg : Config) (w h v : Nat) :
    detect cfg (uniformFrame w h v) = .ok [] := by
  have hvalid : (uniformFrame w h v).validShape = true := by
    simp [uniformFrame, Frame.validShape]
  rw [detect_of_valid _ _ hvalid]
  suffices hdl : detectList cfg (uniformFrame w h v) = [] by rw [hdl]
  simp only [detectList, acceptedMarkers, toGray_uniform]
  simp only [uniformFrame]
  rw [findContours_of_no_dark cfg _ w h (darkAt_binarize_uniform cfg w h v)]
  rfl

/-- C2: detect never throws on a frame of the expected shape, and every
blank frame, all white or all black, of any size yields the empty list
rather than an error. -/
theorem detect_total_and_blank :
    (∀ (cfg : Config) (f : Frame), f.validShape = true →
        ∃ ms, detect cfg f = .ok ms)
      ∧ (∀ (cfg : Config) (w h : Nat),
          detect cfg (uniformFrame w h 255) = .ok []
            ∧ detect cfg (uniformFrame w h 0) = .ok []) :=
  ⟨fun cfg f h => ⟨detectList cfg f, detect_of_valid cfg f h⟩,
    fun cfg w h => ⟨detect_uniform_blank cfg w h 255, detect_uniform_blank cfg w h 0⟩⟩

/-- Witness for C2 at concrete 3 by 3 frames. -/
theorem detect_total_and_blank_witness :
    (uniformFrame 3 3 7).validShape = true
      ∧ (∃ ms, detect defaultConfig (uniformFrame 3 3 7) = .ok ms)
      ∧ detect defaultConfig (uniformFrame 3 3 255) = .ok []
      ∧ detect defaultConfig (uniformFrame 3 3 0) = .ok [] :=
  ⟨by decide, detect_total_and_blank.1 defaultConfig _ (by decide),
    (detect_total_and_blank.2 defaultConfig 3 3).1,
    (detect_total_and_blank.2 defaultConfig 3 3).2⟩

/-- Witness for C10: a tick over a blank frame issues exactly the
scheduling and snapshot commands. -/
theorem tick_empty_no_overlay_witness :
    Canvas.tickCmds defaultConfig (uniformFrame 4 4 255)
      = [Canvas.Cmd.raf] ++ Canvas.snapshotCmds 4 4 :=
  tick_empty_no_overlay defaultConfig _ (detect_uniform_blank defaultConfig 4 4 255)

/-- The signed area is invariant under one corner cycle step. -/
theorem signedArea2_rotQ1 (q : Quad) : signedArea2 (rotQ1 q) = signedArea2 q := by
  cases q
  simp only [rotQ1, signedArea2]
  ring

/-- The signed area is invariant under the rotation reorder. -/
theorem signedArea2_rotateQuad (k : Nat) (q : Quad) :
    signedArea2 (rotateQuad k q) = signedArea2 q := by
  induction k generalizing q with
  | zero => rfl
  | succ k ih =>
    show signedArea2 (rotateQuad k (rotQ1 q)) = signedArea2 q
    rw [ih, signedArea2_rotQ1]

/-- The signed area flips sign under corner cycle reversal. -/
theorem signedArea2_quadReverse (q : Quad) :
    signedArea2 (quadReverse q) = -signedArea2 q := by
  cases q
  simp only [quadReverse, signedArea2]
  ring

/-- Shoelace decomposition of the quadrilateral into the two triangles
cut by the diagonal from the first to the third corner. -/
theorem signedArea2_decomp (q : Quad) :
    signedArea2 q = cross2 q.a q.b q.c + cross2 q.c q.d q.a := by
  cases q
  simp only [signedArea2, cross2]
  ring

/-- Every candidate the polygon stage accepts has strictly positive
signed area: the winding normalization together with strict convexity. -/
theorem toCandidate_signedArea_pos (cfg : Config) (w h : Nat)
    (contour : List Pt) (cand : Candidate)
    (hc : toCandidate cfg w h contour = some cand) :
    0 < signedArea2 cand.corners := by
  unfold toCandidate at hc
  cases happ : approx4 cfg contour with
  | none => rw [happ] at hc; simp at hc
  | some q =>
    rw [happ] at hc
    simp only [Option.some_bind] at hc
    split at hc
    case isTrue hcond =>
      simp only [Option.some.injEq] at hc
      subst hc
      simp only [Bool.and_eq_true] at hcond
      have hconv : convexQuad q = true := hcond.1.1
      unfold convexQuad at hconv
      simp only [Bool.or_eq_true, Bool.and_eq_true, decide_eq_true_eq] at hconv
      by_cases hS : 0 < signedArea2 q
      · simpa [if_pos hS] using hS
      · rcases hconv with ⟨⟨⟨h0, _⟩, h2⟩, _⟩ | ⟨⟨⟨h0, _⟩, h2⟩, _⟩
        · exact absurd (by rw [signedArea2_decomp]; omega) hS
        · have hneg : signedArea2 q < 0 := by rw [signedArea2_decomp]; omega
          simp only [if_neg hS]
          rw [signedArea2_quadReverse]
          omega
    case isFalse => simp at hc

/-- The decoder only reorders the candidate corner cycle. -/
theorem decodeCandidate_corners (cfg : Config) (g : Gray) (cand : Candidate)
    (mp : Marker × Nat) (h : decodeCandidate cfg g cand = some mp) :
    ∃ k, mp.1.corners = rotateQuad k cand.corners := by
  unfold decodeCandidate at h
  cases h1 : squareToQuad cand.corners with
  | none => rw [h1] at h; simp at h
  | some hm =>
    rw [h1] at h
    simp only [Option.some_bind] at h
    cases h2 : sampleGrid g hm cfg.cellSamples with
    | none => rw [h2] at h; simp at h
    | some grid =>
      rw [h2] at h
      simp only [Option.some_bind] at h
      cases h3 : decodeGrid grid with
      | none => rw [h3] at h; simp at h
      | some ir =>
        rw [h3] at h
        exact ⟨ir.2, by rw [← Option.some.inj h]⟩

/-- Deduplication insertion only produces elements of the pool. -/
theorem mem_dedupInsert (eps : Nat) (acc : List (Marker × Nat))
    (m x : Marker × Nat) (h : x ∈ dedupInsert eps acc m) :
    x ∈ acc ∨ x = m := by
  unfold dedupInsert at h
  by_cases hc : (acc.any fun e => duplicateOf eps e m && decide (m.2 ≤ e.2)) = true
  · rw [if_pos hc] at h
    exact Or.inl h
  · rw [if_neg hc] at h
    rcases List.mem_append.1 h with h | h
    · exact Or.inl (List.mem_of_mem_filter h)
    · simp only [List.mem_singleton] at h
      exact Or.inr h

/-- Deduplication returns a subset of the accepted markers. -/
theorem mem_dedup (eps : Nat) (l : List (Marker × Nat)) (x : Marker × Nat)
    (h : x ∈ dedup eps l) : x ∈ l := by
  have haux : ∀ (l' : List (Marker × Nat)) (acc : List (Marker × Nat)),
      x ∈ l'.foldl (dedupInsert eps) acc → x ∈ acc ∨ x ∈ l' := by
    intro l'
    induction l' with
    | nil => intro acc h'; exact Or.inl h'
    | cons hd tl ih =>
      intro acc h'
      rcases ih (dedupInsert eps acc hd) h' with h'' | h''
      · rcases mem_dedupInsert eps acc hd x h'' with h3 | h3
        · exact Or.inl h3
        · exact Or.inr (by simp [h3])
      · exact Or.inr (List.mem_cons_of_mem hd h'')
  rcases haux l [] h with h' | h'
  · simp at h'
  · exact h'

/-- Every accepted marker comes from a candidate through the decoder. -/
theorem mem_acceptedMarkers (cfg : Config) (f : Frame) (mp : Marker × Nat)
    (h : mp ∈ acceptedMarkers cfg f) :
    ∃ contour cand, toCandidate cfg f.width f.height contour = some cand
      ∧ decodeCandidate cfg (toGray f) cand = some mp := by
  unfold acceptedMarkers at h
  rcases List.mem_filterMap.1 h with ⟨cand, hcand, hdec⟩
  rcases List.mem_filterMap.1 hcand with ⟨contour, hcont, htc⟩
  exact ⟨contour, cand, htc, hdec⟩

/-- C5: every Marker returned by detect has corners in one consistent
winding order: the signed area of its corner polygon is strictly
positive (clockwise in screen coordinates), whatever the trace direction
of the contour it came from. -/
theorem marker_winding_consistent (cfg : Config) (f : Frame)
    (ms : List Marker) (m : Marker)
    (hdet : detect cfg f = .ok ms) (hm : m ∈ ms) :
    0 < signedArea2 m.corners := by
  have hms : ms = detectList cfg f := by
    unfold detect at hdet
    split at hdet
    · exact (Except.ok.injEq _ _ ▸ hdet.symm : _)
    · exact absurd hdet (by simp)
  subst hms
  unfold detectList at hm
  rcases List.mem_map.1 hm with ⟨mp, hmp, hm1⟩
  rcases mem_acceptedMarkers cfg f mp (mem_dedup _ _ _ hmp) with
    ⟨contour, cand, htc, hdec⟩
  rcases decodeCandidate_corners cfg (toGray f) cand mp hdec with ⟨k, hk⟩
  have := toCandidate_signedArea_pos cfg f.width f.height contour cand htc
  rw [← hm1, hk, signedArea2_rotateQuad]
  exact this

/-- Witness for C5: the winding invariant applied to the marker detected
on the synthetic frame of id 114 at rotation 0. -/
theorem marker_winding_consistent_witness :
    0 < signedArea2 (⟨⟨2, 2⟩, ⟨15, 2⟩, ⟨15, 15⟩, ⟨2, 15⟩⟩ : Quad) :=
  marker_winding_consistent defaultConfig (markerFrame 114 0)
    [⟨114, ⟨⟨2, 2⟩, ⟨15, 2⟩, ⟨15, 15⟩, ⟨2, 15⟩⟩⟩]
    ⟨114, ⟨⟨2, 2⟩, ⟨15, 2⟩, ⟨15, 15⟩, ⟨2, 15⟩⟩⟩
    (by rw [detect_of_valid _ _ (markerFrame_validShape 114 0)]
        simp [detectList, accepted_m0, dedup_single])
    (List.mem_singleton.2 rfl)

end Spec2Proof





